import Mathlib

/-!
Verification of the URL/path resolution engine of the license-u browser
extension popup, shallowly embedded over `List Char` (JS strings).

Sources embedded:
- `src/app/utils/chrome-tabs.ts` (`GetCurrentTabUrl`, lines 63-79): the
  origin/remainder split at the first `/` found from index 8.
- `src/app/components/common/shobibuttons.tsx` (`HandleUrlProcessing`,
  lines 416-449; `HandleLocalButtonClick`, lines 474-484): base host
  selection per button, trailing-slash normalization, protocol choice,
  and the local-button gate on an unset LocalUrl.
- `src/app/components/AppContainer.tsx` (`MapUrlToFilePath`, lines
  163-185; `OpenFileInEditor`, lines 192-218; `HandleOpenFileClick`,
  lines 239-246): URL-to-local-file-path mapping, editor dispatch, and
  the project-base-path guard.
-/

namespace LicenseU

/-- JS `String.prototype.indexOf('/', start)` restricted to the dropped
prefix: least index of `'/'` in `l`, as an `Option`. -/
def findSlashIdx : List Char → Option Nat
  | [] => none
  | c :: rest => if c = '/' then some 0 else (findSlashIdx rest).map (· + 1)

/-- `chrome-tabs.ts` line 65: `OriginalUrl.indexOf('/', 8)`, with `none`
standing for the JS result `-1`. -/
def SlashIndex (u : List Char) : Option Nat :=
  (findSlashIdx (u.drop 8)).map (· + 8)

/-- `chrome-tabs.ts` lines 66-77: split the URL into the two-element
`UrlParts` array — the whole string paired with `""` when no `/` occurs at
index ≥ 8, otherwise the substring before the found `/` paired with the
substring after it. -/
def UrlParts (u : List Char) : List Char × List Char :=
  match SlashIndex u with
  | none => (u, [])
  | some i => (u.take i, u.drop (i + 1))

/-- `chrome-tabs.ts` line 79: `UrlParts[1] || ''` (the `|| ''` is the
identity on the already-string second component). -/
def ProcessedUrlPart (u : List Char) : List Char :=
  (UrlParts u).2

/-- `shobibuttons.tsx` lines 422-440: the per-button base URL switch.
`localUrl` models the store's `LocalUrl`; JS truthiness makes the empty
string select the `localhost/` default. -/
def BaseUrl (buttonType : String) (localUrl : List Char) : List Char :=
  match buttonType with
  | "ND" => "nd.www.shobi-u.licenseacademy.jp/".data
  | "TEST" => "test.shobi-u.ac.jp/".data
  | "本番" => "www.shobi-u.ac.jp/".data
  | "ローカル" => if localUrl = [] then "localhost/".data else localUrl ++ ['/']
  | _ => "unknown/".data

/-- JS `BaseUrl.endsWith('/')`. -/
def endsWithSlash (l : List Char) : Bool :=
  l.getLast? = some '/'

/-- `shobibuttons.tsx` line 443: append a `/` when the base URL does not
already end in one. -/
def NormalizedBaseUrl (b : List Char) : List Char :=
  if endsWithSlash b then b else b ++ ['/']

/-- `shobibuttons.tsx` line 448: `http` for the ND and local buttons,
`https` otherwise. -/
def Protocol (buttonType : String) : List Char :=
  if buttonType = "ND" ∨ buttonType = "ローカル" then "http".data else "https".data

/-- `shobibuttons.tsx` lines 443-449: `FullUrl` built from the protocol,
the normalized base URL and the processed URL part. -/
def FullUrl (buttonType : String) (localUrl : List Char) (processed : List Char) : List Char :=
  Protocol buttonType ++ "://".data ++ NormalizedBaseUrl (BaseUrl buttonType localUrl) ++ processed

/-- End-to-end environment resolution: `GetCurrentTabUrl` computes
`ProcessedUrlPart` from the active-tab URL and hands it to
`HandleUrlProcessing`, which produces `FullUrl`. -/
def ResolveEnvironmentUrl (originalUrl : List Char) (buttonType : String)
    (localUrl : List Char) : List Char :=
  FullUrl buttonType localUrl (ProcessedUrlPart originalUrl)

/-- JS ASCII whitespace recognised by `String.prototype.trim`. -/
def isJsWhitespace (c : Char) : Bool :=
  c = ' ' || c = '\t' || c = '\n' || c = '\r' || c = '\x0b' || c = '\x0c'

/-- JS `String.prototype.trim` on the embedded character list. -/
def jsTrim (l : List Char) : List Char :=
  ((l.dropWhile isJsWhitespace).reverse.dropWhile isJsWhitespace).reverse

/-- Outcome of a click on the ローカル button. -/
inductive LocalClick where
  | notSet
  | proceeded (fullUrl : List Char)
  deriving DecidableEq

/-- `shobibuttons.tsx` lines 474-484: when `LocalUrl` is falsy or trims to
the empty string the handler notifies the container (confirmation modal)
and returns without resolving; otherwise the normal ローカル resolution
runs on the active-tab URL. -/
def HandleLocalButtonClick (localUrl : List Char) (tabUrl : List Char) : LocalClick :=
  if localUrl = [] ∨ jsTrim localUrl = [] then
    .notSet
  else
    .proceeded (ResolveEnvironmentUrl tabUrl "ローカル" localUrl)

/-- `AppContainer.tsx` line 169: strip a single leading `/` from the
parsed pathname. -/
def stripLeadingSlash (p : List Char) : List Char :=
  match p with
  | '/' :: rest => rest
  | _ => p

/-- `AppContainer.tsx` lines 172-175: `cleanPath.replace(/\//g, '\\')`. -/
def replaceSlashBackslash (l : List Char) : List Char :=
  l.map (fun c => if c = '/' then '\\' else c)

/-- `AppContainer.tsx` line 178: `filePath.replace(/\.[^.]*$/, '')` —
drop everything from the last `.` (inclusive) to the end; the string is
unchanged when it contains no `.`. -/
def stripFinalExt (l : List Char) : List Char :=
  match l.reverse.dropWhile (fun c => c ≠ '.') with
  | [] => l
  | _ :: rest => rest.reverse

/-- `AppContainer.tsx` lines 163-185 (`MapUrlToFilePath`). The browser's
`new URL(url).pathname` is a host API; its outcome is taken as input:
`some pathname` models a successful parse, `none` the thrown parse error
handled by the `catch` branch (lines 181-184), which yields the
`error.tpl` fallback. -/
def MapUrlToFilePathCore (parsedPathname : Option (List Char))
    (projectBasePath : List Char) : List Char :=
  match parsedPathname with
  | some pathname =>
    let cleanPath := stripLeadingSlash pathname
    let filePath := projectBasePath ++ "\\_views\\".data ++ replaceSlashBackslash cleanPath
    stripFinalExt filePath ++ ".tpl".data
  | none => projectBasePath ++ "\\_views\\error.tpl".data

/-- The side effects of one `OpenFileInEditor` call: at most one
`chrome.tabs.create` navigation, at most one clipboard write, and whether
the unsupported-editor default branch ran (each branch also emits its
result message, determined by the same case split). -/
structure EditorDispatch where
  navigateTo : Option (List Char)
  clipboard : Option (List Char)
  unsupported : Bool
  deriving DecidableEq

/-- `AppContainer.tsx` lines 192-218: dispatch on `PreferredEditor`.
`vscode` and `cursor` navigate to their URI scheme over the
forward-slash-normalized path; `dreamweaver` only copies the raw path;
anything else reports an unsupported editor and does nothing. -/
def OpenFileInEditor (editor : String) (filePath : List Char) : EditorDispatch :=
  if editor = "vscode" then
    { navigateTo := some ("vscode://file/".data ++ filePath.map (fun c => if c = '\\' then '/' else c))
      clipboard := none
      unsupported := false }
  else if editor = "cursor" then
    { navigateTo := some ("cursor://file/".data ++ filePath.map (fun c => if c = '\\' then '/' else c))
      clipboard := none
      unsupported := false }
  else if editor = "dreamweaver" then
    { navigateTo := none
      clipboard := some filePath
      unsupported := false }
  else
    { navigateTo := none
      clipboard := none
      unsupported := true }

/-- Outcome of a click on the open-file button. -/
inductive OpenFileFlow where
  | projectPathNotConfigured
  | proceeded (dispatch : EditorDispatch)
  deriving DecidableEq

/-- `AppContainer.tsx` lines 239-252 (`HandleOpenFileClick`): a falsy or
whitespace-only `ProjectBasePath` yields only the configure-it message;
otherwise the active-tab URL is mapped to a file path and dispatched to
the editor. -/
def HandleOpenFileClick (projectBasePath : List Char) (editor : String)
    (parsedPathname : Option (List Char)) : OpenFileFlow :=
  if projectBasePath = [] ∨ jsTrim projectBasePath = [] then
    .projectPathNotConfigured
  else
    .proceeded (OpenFileInEditor editor (MapUrlToFilePathCore parsedPathname projectBasePath))

/-- The settings snapshot read by the handlers. -/
structure SettingsState where
  LocalUrl : List Char
  ProjectBasePath : List Char
  PreferredEditor : String
  deriving DecidableEq

/-- One environment-resolution invocation against the store: the handlers
read `LocalUrl` and call none of the store's `Set`/`Save` actions, so the
snapshot is returned unchanged alongside the output. -/
def EnvResolveInvoke (s : SettingsState) (tabUrl : List Char) (buttonType : String) :
    List Char × SettingsState :=
  (ResolveEnvironmentUrl tabUrl buttonType s.LocalUrl, s)

/-- One file-path-resolution invocation against the store: reads
`ProjectBasePath` only, mutating nothing. -/
def FileResolveInvoke (s : SettingsState) (parsedPathname : Option (List Char)) :
    List Char × SettingsState :=
  (MapUrlToFilePathCore parsedPathname s.ProjectBasePath, s)

/-! ## Helper lemmas -/

/-- When `l₁` contains no slash, the first slash of `l₁ ++ '/' :: l₂` sits
exactly at index `l₁.length`. -/
theorem findSlashIdx_append_slash (l₁ l₂ : List Char) (h : '/' ∉ l₁) :
    findSlashIdx (l₁ ++ '/' :: l₂) = some l₁.length := by
  induction l₁ with
  | nil => simp [findSlashIdx]
  | cons c rest ih =>
    have hc : ¬ c = '/' := fun e => h (List.mem_cons.mpr (Or.inl e.symm))
    have hrest : '/' ∉ rest := fun m => h (List.mem_cons.mpr (Or.inr m))
    simp [findSlashIdx, hc, ih hrest]

/-- `findSlashIdx` returns `none` exactly when the list has no slash. -/
theorem findSlashIdx_eq_none_iff (l : List Char) : findSlashIdx l = none ↔ '/' ∉ l := by
  induction l with
  | nil => simp [findSlashIdx]
  | cons c rest ih =>
    by_cases hc : c = '/'
    · subst hc
      simp [findSlashIdx]
    · have hc' : ¬ ('/' = c) := fun e => hc e.symm
      simp [findSlashIdx, hc, hc', ih, List.mem_cons]

/-- A successful `findSlashIdx` decomposes the list at its first slash. -/
theorem findSlashIdx_some (l : List Char) (j : Nat) (h : findSlashIdx l = some j) :
    ∃ l₁ l₂, l = l₁ ++ '/' :: l₂ ∧ l₁.length = j ∧ '/' ∉ l₁ := by
  induction l generalizing j with
  | nil => simp [findSlashIdx] at h
  | cons c rest ih =>
    by_cases hc : c = '/'
    · subst hc
      simp [findSlashIdx] at h
      exact ⟨[], rest, rfl, by simp [h], by simp⟩
    · simp only [findSlashIdx, if_neg hc, Option.map_eq_some'] at h
      obtain ⟨j', hj', hjj⟩ := h
      obtain ⟨l₁, l₂, he, hl, hmem⟩ := ih j' hj'
      refine ⟨c :: l₁, l₂, by simp [he], by simp [hl, ← hjj], ?_⟩
      intro hm
      rcases List.mem_cons.mp hm with h1 | h2
      · exact hc h1.symm
      · exact hmem h2

/-- `dropWhile (≠ '.')` on a list containing a dot stops at that dot. -/
theorem dropWhile_ne_dot_of_mem (l : List Char) (h : '.' ∈ l) :
    ∃ r, l.dropWhile (fun c => c ≠ '.') = '.' :: r := by
  induction l with
  | nil => exact absurd h (List.not_mem_nil _)
  | cons c rest ih =>
    by_cases hc : c = '.'
    · subst hc
      exact ⟨rest, by simp [List.dropWhile_cons]⟩
    · have hmem : '.' ∈ rest := by
        rcases List.mem_cons.mp h with h1 | h2
        · exact absurd h1.symm hc
        · exact h2
      obtain ⟨r, hr⟩ := ih hmem
      refine ⟨r, ?_⟩
      rw [List.dropWhile_cons, if_pos (by simp [hc]), hr]

/-- A dot-free string is unchanged by the extension-stripping regex. -/
theorem stripFinalExt_of_not_mem (l : List Char) (h : '.' ∉ l) : stripFinalExt l = l := by
  have hnil : l.reverse.dropWhile (fun c => c ≠ '.') = [] := by
    rw [List.dropWhile_eq_nil_iff]
    intro x hx
    simp only [ne_eq, decide_eq_true_eq]
    intro he
    exact h (he ▸ List.mem_reverse.mp hx)
  unfold stripFinalExt
  rw [hnil]

/-- When the right part contains a dot, the extension-stripping regex
removes characters from the right part only, keeping the left part as a
prefix. -/
theorem stripFinalExt_append_right (l t : List Char) (h : '.' ∈ t) :
    ∃ r, stripFinalExt (l ++ t) = l ++ r := by
  obtain ⟨r', hr'⟩ := dropWhile_ne_dot_of_mem t.reverse (List.mem_reverse.mpr h)
  refine ⟨r'.reverse, ?_⟩
  unfold stripFinalExt
  rw [List.reverse_append, List.dropWhile_append, hr']
  simp

/-- Resolution with the ローカル button and a non-empty (JS-truthy)
`LocalUrl`: the base is `LocalUrl ++ "/"`, already slash-terminated, so the
normalization leaves it alone. -/
theorem local_resolve_eq (u lu : List Char) (h : lu ≠ []) :
    ResolveEnvironmentUrl u "ローカル" lu = "http://".data ++ lu ++ '/' :: ProcessedUrlPart u := by
  have hb : BaseUrl "ローカル" lu = lu ++ ['/'] := by
    show (if lu = [] then "localhost/".data else lu ++ ['/']) = lu ++ ['/']
    rw [if_neg h]
  have he : endsWithSlash (lu ++ ['/']) = true := by
    unfold endsWithSlash
    simp [List.getLast?_concat]
  have hn : NormalizedBaseUrl (lu ++ ['/']) = lu ++ ['/'] := by
    unfold NormalizedBaseUrl
    rw [if_pos he]
  show Protocol "ローカル" ++ "://".data ++ NormalizedBaseUrl (BaseUrl "ローカル" lu)
      ++ ProcessedUrlPart u = _
  rw [hb, hn]
  show "http://".data ++ (lu ++ ['/']) ++ ProcessedUrlPart u
      = "http://".data ++ lu ++ '/' :: ProcessedUrlPart u
  simp [List.append_assoc]

/-! ## Claim theorems -/

/-- C1: environment resolution returns protocol ++ "://" ++ base host ++
remainder, where remainder is the substring after the first `/` at index
≥ 8 (empty if none); ND maps to `nd.www.shobi-u.licenseacademy.jp/` over
http, TEST to `test.shobi-u.ac.jp/` over https, and 本番 (Production) to
`www.shobi-u.ac.jp/` over https; in particular
`https://example.com/a/b` with ND resolves to
`http://nd.www.shobi-u.licenseacademy.jp/a/b` and `https://example.com`
with 本番 resolves to `https://www.shobi-u.ac.jp/`. -/
theorem C1_environment_mapping (u lu : List Char) :
    ResolveEnvironmentUrl u "ND" lu
      = "http://nd.www.shobi-u.licenseacademy.jp/".data ++ ProcessedUrlPart u
  ∧ ResolveEnvironmentUrl u "TEST" lu
      = "https://test.shobi-u.ac.jp/".data ++ ProcessedUrlPart u
  ∧ ResolveEnvironmentUrl u "本番" lu
      = "https://www.shobi-u.ac.jp/".data ++ ProcessedUrlPart u
  ∧ ResolveEnvironmentUrl "https://example.com/a/b".data "ND" lu
      = "http://nd.www.shobi-u.licenseacademy.jp/a/b".data
  ∧ ResolveEnvironmentUrl "https://example.com".data "本番" lu
      = "https://www.shobi-u.ac.jp/".data :=
  ⟨rfl, rfl, rfl, rfl, rfl⟩

/-- C3: a `ProjectBasePath` that is empty or whitespace after trimming
makes the open-file click fail with the not-configured outcome, with no
resolution, no tab and no clipboard write. -/
theorem C3_project_path_guard (base : List Char) (editor : String)
    (pathname : Option (List Char)) (h : jsTrim base = []) :
    HandleOpenFileClick base editor pathname = OpenFileFlow.projectPathNotConfigured := by
  unfold HandleOpenFileClick
  rw [if_pos (Or.inr h)]

/-- Witness for C3 at whitespace-only `ProjectBasePath`. -/
theorem C3_project_path_guard_witness :
    jsTrim "   ".data = []
  ∧ HandleOpenFileClick "   ".data "vscode" (some "/a".data)
      = OpenFileFlow.projectPathNotConfigured :=
  ⟨by decide, C3_project_path_guard "   ".data "vscode" (some "/a".data) (by decide)⟩

/-- C4: a URL-parse failure is swallowed and the local-file-path
resolution returns exactly `ProjectBasePath ++ "\_views\error.tpl"`. -/
theorem C4_parse_failure_fallback (base : List Char) (h : base ≠ []) :
    MapUrlToFilePathCore none base = base ++ "\\_views\\error.tpl".data := rfl

/-- Witness for C4 at `ProjectBasePath = "C:\proj"`. -/
theorem C4_parse_failure_fallback_witness :
    "C:\\proj".data ≠ ([] : List Char)
  ∧ MapUrlToFilePathCore none "C:\\proj".data = "C:\\proj\\_views\\error.tpl".data :=
  ⟨by decide, (C4_parse_failure_fallback "C:\\proj".data (by decide)).trans (by decide)⟩

/-- C5 counterexample: with the whitespace-only `LocalUrl` `" "` the code
resolves to `http:// /a` — the base host is the untrimmed `" /"`, not the
`localhost` the claim requires. -/
theorem C5_counterexample :
    ResolveEnvironmentUrl "https://example.com/a".data "ローカル" " ".data
      = "http:// /a".data
  ∧ ResolveEnvironmentUrl "https://example.com/a".data "ローカル" " ".data
      ≠ "http://localhost/a".data := by
  constructor <;> decide

/-- C5 amended: the ローカル branch uses the untrimmed `LocalUrl` followed
by `/` as base host whenever `LocalUrl` is non-empty (even whitespace-only),
and `localhost/` only when `LocalUrl` is exactly the empty string; the
protocol is http; separately, the local button handler refuses to resolve
when `LocalUrl` is empty or whitespace-only after trimming (prompting the
user instead) and resolves otherwise. -/
theorem C5_amended_local_base (u lu : List Char) :
    (lu = [] → ResolveEnvironmentUrl u "ローカル" lu
        = "http://localhost/".data ++ ProcessedUrlPart u)
  ∧ (lu ≠ [] → ResolveEnvironmentUrl u "ローカル" lu
        = "http://".data ++ lu ++ '/' :: ProcessedUrlPart u)
  ∧ (jsTrim lu = [] → HandleLocalButtonClick lu u = LocalClick.notSet)
  ∧ (jsTrim lu ≠ [] → HandleLocalButtonClick lu u
        = LocalClick.proceeded (ResolveEnvironmentUrl u "ローカル" lu)) := by
  refine ⟨?_, ?_, ?_, ?_⟩
  · rintro rfl
    rfl
  · intro h
    exact local_resolve_eq u lu h
  · intro h
    unfold HandleLocalButtonClick
    rw [if_pos (Or.inr h)]
  · intro h
    have h1 : ¬ (lu = [] ∨ jsTrim lu = []) := by
      rintro (h' | h')
      · subst h'
        exact h rfl
      · exact h h'
    unfold HandleLocalButtonClick
    rw [if_neg h1]

/-- Witness for C5 amended at a non-empty `LocalUrl`. -/
theorem C5_amended_local_base_witness :
    ResolveEnvironmentUrl "https://example.com/a".data "ローカル" "myhost".data
      = "http://".data ++ "myhost".data ++ '/' :: ProcessedUrlPart "https://example.com/a".data :=
  (C5_amended_local_base "https://example.com/a".data "myhost".data).2.1 (by decide)

/-- C6 counterexample: with `LocalUrl = "localhost/"` (already ending in
`/`) the resolved URL is `http://localhost//a` — a double slash at the
host–path junction besides the scheme's. -/
theorem C6_counterexample :
    ResolveEnvironmentUrl "https://example.com/a".data "ローカル" "localhost/".data
      = "http://localhost//a".data
  ∧ "//".data <:+: List.drop 7 "http://localhost//a".data := by
  constructor <;> decide

/-- C6 amended: the trailing-slash normalization only appends a `/` when
the base host lacks one and never collapses an existing double; the fixed
ND/TEST/本番 hosts end in exactly one `/`, but for ローカル the code
appends `/` to a non-empty `LocalUrl` unconditionally, so a `LocalUrl`
already ending in `/` produces a double slash at the host–path junction. -/
theorem C6_amended_no_collapse (u lu : List Char) (h : lu ≠ []) :
    ResolveEnvironmentUrl u "ローカル" lu
      = "http://".data ++ lu ++ '/' :: ProcessedUrlPart u
  ∧ (∀ lu', lu = lu' ++ ['/'] →
      ResolveEnvironmentUrl u "ローカル" lu
        = "http://".data ++ lu' ++ '/' :: '/' :: ProcessedUrlPart u) := by
  refine ⟨local_resolve_eq u lu h, ?_⟩
  rintro lu' rfl
  rw [local_resolve_eq u _ h]
  simp [List.append_assoc]

/-- Witness for C6 amended: `LocalUrl = "localhost/"` shows the junction
double slash. -/
theorem C6_amended_no_collapse_witness :
    ResolveEnvironmentUrl "https://example.com/a".data "ローカル" "localhost/".data
      = "http://".data ++ "localhost".data ++ '/' :: '/'
          :: ProcessedUrlPart "https://example.com/a".data :=
  (C6_amended_no_collapse "https://example.com/a".data "localhost/".data (by decide)).2
    "localhost".data (by decide)

/-- C7: editor dispatch is a total case split — vscode navigates to
`vscode://file/` plus the forward-slash-normalized path, cursor likewise
with `cursor://file/`, dreamweaver only writes the raw path to the
clipboard and never navigates, and any other editor yields the
unsupported-editor message with no navigation and no clipboard write. -/
theorem C7_editor_dispatch (p : List Char) :
    OpenFileInEditor "vscode" p
      = { navigateTo := some ("vscode://file/".data ++ p.map (fun c => if c = '\\' then '/' else c))
          clipboard := none
          unsupported := false }
  ∧ OpenFileInEditor "cursor" p
      = { navigateTo := some ("cursor://file/".data ++ p.map (fun c => if c = '\\' then '/' else c))
          clipboard := none
          unsupported := false }
  ∧ OpenFileInEditor "dreamweaver" p
      = { navigateTo := none, clipboard := some p, unsupported := false }
  ∧ (OpenFileInEditor "dreamweaver" p).navigateTo = none
  ∧ ∀ e : String, e ≠ "vscode" → e ≠ "cursor" → e ≠ "dreamweaver" →
      OpenFileInEditor e p = { navigateTo := none, clipboard := none, unsupported := true } := by
  refine ⟨rfl, rfl, rfl, rfl, ?_⟩
  intro e h1 h2 h3
  unfold OpenFileInEditor
  rw [if_neg h1, if_neg h2, if_neg h3]

/-- Witness for C7 at an unsupported editor value. -/
theorem C7_editor_dispatch_witness :
    OpenFileInEditor "sublime" "C:\\x.tpl".data
      = { navigateTo := none, clipboard := none, unsupported := true } :=
  (C7_editor_dispatch "C:\\x.tpl".data).2.2.2.2 "sublime" (by decide) (by decide) (by decide)

/-- C8: both resolutions are pure functions of the tab URL, selector and
settings snapshot — repeating an invocation with the unchanged snapshot
yields the identical output, and no invocation changes the snapshot (the
handlers call none of the store's `Set`/`Save` actions). -/
theorem C8_resolution_pure (s : SettingsState) (u : List Char) (bt : String)
    (pathname : Option (List Char)) :
    (EnvResolveInvoke s u bt).2 = s
  ∧ (EnvResolveInvoke (EnvResolveInvoke s u bt).2 u bt).1 = (EnvResolveInvoke s u bt).1
  ∧ (FileResolveInvoke s pathname).2 = s
  ∧ (FileResolveInvoke (FileResolveInvoke s pathname).2 pathname).1
      = (FileResolveInvoke s pathname).1 :=
  ⟨rfl, rfl, rfl, rfl⟩

/-- C2 counterexample: the extension regex acts on the whole composed
string, not on the last path segment — with `ProjectBasePath = "C:\pr.j"`
(which contains a dot) and pathname `/a` the code yields `C:\pr.tpl`,
not the claimed `C:\pr.j\_views\a.tpl`. -/
theorem C2_counterexample :
    MapUrlToFilePathCore (some "/a".data) "C:\\pr.j".data = "C:\\pr.tpl".data
  ∧ MapUrlToFilePathCore (some "/a".data) "C:\\pr.j".data
      ≠ "C:\\pr.j\\_views\\a.tpl".data := by
  constructor <;> decide

/-- C2 amended: resolution composes `ProjectBasePath ++ "\_views\" ++`
the backslash-converted pathname and replaces the content after the final
`.` of that whole composed string (not just of the last path segment) by
`.tpl`, appending `.tpl` when no dot exists anywhere; the result always
ends in `.tpl`, and it starts with `ProjectBasePath ++ "\_views"`
whenever `ProjectBasePath` itself contains no dot; resolving
`/a/b.html` with base `C:\proj` yields `C:\proj\_views\a\b.tpl`. -/
theorem C2_amended_tpl_extension (pathname base : List Char) (hbase : base ≠ []) :
    ".tpl".data <:+ MapUrlToFilePathCore (some pathname) base
  ∧ ('.' ∉ base → base ++ "\\_views".data <+: MapUrlToFilePathCore (some pathname) base)
  ∧ MapUrlToFilePathCore (some "/a/b.html".data) "C:\\proj".data
      = "C:\\proj\\_views\\a\\b.tpl".data := by
  have hunfold : MapUrlToFilePathCore (some pathname) base
      = stripFinalExt (base ++ "\\_views\\".data
          ++ replaceSlashBackslash (stripLeadingSlash pathname)) ++ ".tpl".data := rfl
  have hv : "\\_views\\".data = "\\_views".data ++ ['\\'] := rfl
  refine ⟨?_, ?_, by decide⟩
  · rw [hunfold]
    exact List.suffix_append _ _
  · intro hdot
    rw [hunfold]
    by_cases hmem : '.' ∈ replaceSlashBackslash (stripLeadingSlash pathname)
    · obtain ⟨r, hr⟩ := stripFinalExt_append_right (base ++ "\\_views\\".data) _ hmem
      rw [hr]
      refine ⟨'\\' :: (r ++ ".tpl".data), ?_⟩
      simp [hv, List.append_assoc]
    · have hP : '.' ∉ base ++ "\\_views\\".data ++ replaceSlashBackslash (stripLeadingSlash pathname) := by
        intro hm
        rcases List.mem_append.mp hm with hm' | hm''
        · rcases List.mem_append.mp hm' with h1 | h2
          · exact hdot h1
          · revert h2
            decide
        · exact hmem hm''
      rw [stripFinalExt_of_not_mem _ hP]
      refine ⟨'\\' :: (replaceSlashBackslash (stripLeadingSlash pathname) ++ ".tpl".data), ?_⟩
      simp [hv, List.append_assoc]

/-- Witness for C2 amended at the spec's worked example. -/
theorem C2_amended_tpl_extension_witness :
    ".tpl".data <:+ MapUrlToFilePathCore (some "/a/b.html".data) "C:\\proj".data
  ∧ "C:\\proj".data ++ "\\_views".data
      <+: MapUrlToFilePathCore (some "/a/b.html".data) "C:\\proj".data :=
  ⟨(C2_amended_tpl_extension "/a/b.html".data "C:\\proj".data (by decide)).1,
   (C2_amended_tpl_extension "/a/b.html".data "C:\\proj".data (by decide)).2.1 (by decide)⟩

/-- C9 counterexample: the claim predicts that every `http://`-prefixed
URL with a non-empty path has its first path character swallowed into the
origin, but `http://a/b` splits correctly into origin `http://a` and
remainder `b` — the path character `b` is not in the origin half. -/
theorem C9_counterexample :
    UrlParts "http://a/b".data = ("http://a".data, "b".data)
  ∧ 'b' ∉ (UrlParts "http://a/b".data).1 := by
  constructor <;> decide

/-- C9 amended: the fixed offset 8 misses a path `/` only when it occurs
at an index below 8, i.e. when scheme ++ `://` ++ host is shorter than 8
characters — e.g. `ftp://a/b/c` splits into origin `ftp://a/b` (first
path segment swallowed) and remainder `c`; an `http://`-prefixed URL with
a non-empty slash-free host has its first path `/` at index ≥ 8 and
splits correctly. -/
theorem C9_amended_offset_split (h p : List Char) (hne : h ≠ []) (hns : '/' ∉ h) :
    UrlParts ("http://".data ++ h ++ '/' :: p) = ("http://".data ++ h, p)
  ∧ UrlParts "ftp://a/b/c".data = ("ftp://a/b".data, "c".data) := by
  refine ⟨?_, by decide⟩
  obtain ⟨a, h', rfl⟩ : ∃ a h', h = a :: h' := by
    cases h with
    | nil => exact absurd rfl hne
    | cons a h' => exact ⟨a, h', rfl⟩
  have hdrop8 : ("http://".data ++ (a :: h') ++ '/' :: p).drop 8 = h' ++ '/' :: p := by
    have hrearr : "http://".data ++ (a :: h') ++ '/' :: p
        = ("http://".data ++ [a]) ++ (h' ++ '/' :: p) := by
      simp
    rw [hrearr]
    apply List.drop_left'
    rw [List.length_append]
    rfl
  have hfsi : findSlashIdx (h' ++ '/' :: p) = some h'.length :=
    findSlashIdx_append_slash h' p (fun m => hns (List.mem_cons.mpr (Or.inr m)))
  have hsi : SlashIndex ("http://".data ++ (a :: h') ++ '/' :: p) = some (h'.length + 8) := by
    unfold SlashIndex
    rw [hdrop8, hfsi]
    rfl
  have h7 : "http://".data.length = 7 := rfl
  have hlen1 : ("http://".data ++ (a :: h')).length = h'.length + 8 := by
    rw [List.length_append, h7, List.length_cons]
    omega
  have htake : ("http://".data ++ (a :: h') ++ '/' :: p).take (h'.length + 8)
      = "http://".data ++ (a :: h') := List.take_left' hlen1
  have hdropRem : ("http://".data ++ (a :: h') ++ '/' :: p).drop (h'.length + 8 + 1) = p := by
    have hrearr : "http://".data ++ (a :: h') ++ '/' :: p
        = (("http://".data ++ (a :: h')) ++ ['/']) ++ p := by
      simp
    rw [hrearr]
    apply List.drop_left'
    rw [List.length_append, hlen1]
    rfl
  have hup : UrlParts ("http://".data ++ (a :: h') ++ '/' :: p)
      = (("http://".data ++ (a :: h') ++ '/' :: p).take (h'.length + 8),
         ("http://".data ++ (a :: h') ++ '/' :: p).drop (h'.length + 8 + 1)) := by
    unfold UrlParts
    rw [hsi]
  rw [hup, htake, hdropRem]

/-- Witness for C9 amended at host `a`, path `b`. -/
theorem C9_amended_offset_split_witness :
    UrlParts ("http://".data ++ "a".data ++ '/' :: "b".data)
      = ("http://".data ++ "a".data, "b".data) :=
  (C9_amended_offset_split "a".data "b".data (by decide) (by decide)).1

/-- C10: whenever some `/` occurs at an index ≥ 8 the split is lossless —
origin ++ `/` ++ remainder reassembles the URL and the origin has no `/`
at any index ≥ 8; with no `/` at index ≥ 8 the origin is the whole URL
and the remainder is empty. -/
theorem C10_split_lossless (u : List Char) :
    ((∃ k, 8 ≤ k ∧ u[k]? = some '/') →
      (UrlParts u).1 ++ '/' :: (UrlParts u).2 = u
        ∧ ∀ k, 8 ≤ k → (UrlParts u).1[k]? ≠ some '/')
  ∧ ((¬ ∃ k, 8 ≤ k ∧ u[k]? = some '/') → UrlParts u = (u, [])) := by
  constructor
  · rintro ⟨k, hk8, hget⟩
    have hmem : '/' ∈ u.drop 8 := by
      have hget' : (u.drop 8)[k - 8]? = some '/' := by
        rw [List.getElem?_drop]
        have h8 : 8 + (k - 8) = k := by omega
        rw [h8]
        exact hget
      exact List.getElem?_mem hget'
    obtain ⟨j, hj⟩ : ∃ j, findSlashIdx (u.drop 8) = some j := by
      cases hfs : findSlashIdx (u.drop 8) with
      | none => exact absurd hmem ((findSlashIdx_eq_none_iff _).mp hfs)
      | some j => exact ⟨j, rfl⟩
    obtain ⟨l₁, l₂, hsplit, hlen, hnm⟩ := findSlashIdx_some _ _ hj
    have hSlash : SlashIndex u = some (j + 8) := by
      unfold SlashIndex
      rw [hj]
      rfl
    have hup : UrlParts u = (u.take (j + 8), u.drop (j + 8 + 1)) := by
      unfold UrlParts
      rw [hSlash]
    have hu8 : 8 < u.length := by
      by_contra hle
      have hdn : u.drop 8 = [] := List.drop_eq_nil_iff.mpr (by omega)
      rw [hdn] at hsplit
      simp at hsplit
    have htk8 : (u.take 8).length = 8 := by
      rw [List.length_take]
      omega
    have hudecomp : u = u.take 8 ++ (l₁ ++ '/' :: l₂) := by
      conv_lhs => rw [← List.take_append_drop 8 u, hsplit]
    have htake : u.take (j + 8) = u.take 8 ++ l₁ := by
      have hcomm : j + 8 = 8 + j := by omega
      rw [hcomm]
      conv_lhs => rw [hudecomp]
      rw [List.take_add]
      congr 1
      · exact List.take_left' htk8
      · rw [List.drop_left' htk8]
        exact List.take_left' hlen
    have hdrop : u.drop (j + 8 + 1) = l₂ := by
      conv_lhs => rw [hudecomp]
      have hrc : u.take 8 ++ (l₁ ++ '/' :: l₂) = (u.take 8 ++ l₁ ++ ['/']) ++ l₂ := by
        simp
      rw [hrc]
      apply List.drop_left'
      simp only [List.length_append, List.length_cons, List.length_nil, htk8, hlen]
      omega
    constructor
    · rw [hup]
      simp only
      rw [htake, hdrop]
      conv_rhs => rw [hudecomp]
      simp
    · intro k hk
      rw [hup]
      simp only
      rw [htake]
      rw [List.getElem?_append_right (by rw [htk8]; exact hk)]
      intro hcontra
      exact hnm (List.getElem?_mem hcontra)
  · intro hn
    have hnm : '/' ∉ u.drop 8 := by
      intro hm
      obtain ⟨m, hm'⟩ := List.getElem?_of_mem hm
      rw [List.getElem?_drop] at hm'
      exact hn ⟨8 + m, by omega, hm'⟩
    have hfn : findSlashIdx (u.drop 8) = none := (findSlashIdx_eq_none_iff _).mpr hnm
    unfold UrlParts SlashIndex
    rw [hfn]
    rfl

/-- Witness for C10 at `https://example.com/a/b` (first `/` at index 19). -/
theorem C10_split_lossless_witness :
    (UrlParts "https://example.com/a/b".data).1
        ++ '/' :: (UrlParts "https://example.com/a/b".data).2
      = "https://example.com/a/b".data :=
  ((C10_split_lossless "https://example.com/a/b".data).1 ⟨19, by decide, by decide⟩).1

end LicenseU
